import Mathlib

/-!
Shallow embedding of the portgate repository (Go) for specification checking.

The Go source is embedded as executable Lean definitions:
  * string-manipulation helpers model the `strings` / `net` standard-library
    calls the program uses (ASCII fragment of the Unicode behaviour, which is
    all the program relies on);
  * `ConfigStore` mutation methods become pure list transformers (the lock and
    the persistence step carry no algorithmic content; the in-memory list is
    the authoritative state the claims speak about);
  * `Scanner.scan` becomes a pure function over an oracle environment that
    answers the network probes (`isOpen`, HTTP probe outcome);
  * the proxy routing of `ProxyHandler` becomes a pure decision function;
  * `findExeByPort` (process_unix.go) is a pure function over a snapshot of
    the relevant `/proc` contents.
-/

namespace Portgate

/-! ## ASCII string helpers (models of Go `strings` functions) -/

/-- ASCII whitespace test, modelling `unicode.IsSpace` on ASCII input. -/
def isAsciiSpace (c : Char) : Bool :=
  c == ' ' || c == '\t' || c == '\n' || c == '\r' || c == '\x0b' || c == '\x0c'

/-- Simple case folding on ASCII letters: uppercase maps to lowercase. -/
def foldChar (c : Char) : Char :=
  if 'A' ≤ c && c ≤ 'Z' then Char.ofNat (c.toNat + 32) else c

/-- Model of Go `strings.EqualFold` on ASCII strings: both sides agree after
case folding every character. -/
def asciiEqualFold (a b : String) : Bool :=
  a.toList.map foldChar == b.toList.map foldChar

/-- Model of Go `strings.ToLower` on ASCII strings. -/
def toLowerStr (s : String) : String :=
  String.mk (s.toList.map foldChar)

/-- Trim ASCII whitespace from both ends of a char list. -/
def trimList (cs : List Char) : List Char :=
  ((cs.dropWhile isAsciiSpace).reverse.dropWhile isAsciiSpace).reverse

/-- Model of Go `strings.TrimSpace` on ASCII strings. -/
def trimSpace (s : String) : String :=
  String.mk (trimList s.toList)

/-- Model of Go `strings.HasSuffix`. -/
def strEndsWith (s suffix : String) : Bool :=
  suffix.toList.isSuffixOf s.toList

/-- Model of Go `strings.TrimSuffix`: drops one copy of `suffix` when present. -/
def trimSuffixStr (s suffix : String) : String :=
  if strEndsWith s suffix then
    String.mk (s.toList.take (s.toList.length - suffix.toList.length))
  else s

/-- Split a char list at every occurrence of `sep`, keeping empty pieces,
modelling Go `strings.Split`. -/
def splitOnCharList (sep : Char) : List Char → List (List Char)
  | [] => [[]]
  | c :: rest =>
    match splitOnCharList sep rest with
    | [] => [[c]]
    | h :: t => if c == sep then [] :: h :: t else (c :: h) :: t

/-- Split a char list at the first occurrence of `sep`, modelling the
two-piece result of Go `strings.SplitN(s, sep, 2)`; `none` when `sep` is
absent (Go would return a single piece). -/
def splitFirst (sep : Char) : List Char → Option (List Char × List Char)
  | [] => none
  | c :: rest =>
    if c == sep then some ([], rest)
    else (splitFirst sep rest).map (fun p => (c :: p.1, p.2))

/-! ## Data model (types.go, the later revision carrying source/exePath) -/

/-- DiscoveredPort (types.go): one entry of the scanner snapshot. `lastSeen`
is an abstract timestamp. -/
structure DiscoveredPort where
  port : Int
  protocol : String
  serviceName : String
  title : String
  healthy : Bool
  lastSeen : Nat
  source : String
  exePath : String
  deriving Repr, DecidableEq

/-- ManualPort (types.go): a user-registered port persisted in config. -/
structure ManualPort where
  port : Int
  name : String
  path : String
  deriving Repr, DecidableEq

/-- ScanRange (types.go): inclusive port interval. The Go field `End` is
named `stop` here because `end` is a Lean keyword. -/
structure ScanRange where
  start : Int
  stop : Int
  deriving Repr, DecidableEq

/-- DomainMapping (types.go): binds a subdomain to a target port. -/
structure DomainMapping where
  domain : String
  targetPort : Int
  createdAt : Nat
  system : Bool
  deriving Repr, DecidableEq

/-! ## ConfigStore operations (config.go, later revision with scan ranges) -/

/-- DefaultScanRanges (config.go). -/
def DefaultScanRanges : List ScanRange :=
  [⟨3000, 3999⟩, ⟨4000, 4099⟩, ⟨5000, 5999⟩, ⟨8000, 8999⟩]

/-- ConfigStore.AddMapping (config.go): removes every existing mapping with
the same domain, then appends the new one. -/
def addMapping (mappings : List DomainMapping) (m : DomainMapping) : List DomainMapping :=
  (mappings.filter (fun existing => existing.domain != m.domain)) ++ [m]

/-- ConfigStore.LookupPort (config.go): first mapping with the given domain,
or 0 when absent. -/
def lookupPort (mappings : List DomainMapping) (domain : String) : Int :=
  match mappings.find? (fun m => m.domain == domain) with
  | some m => m.targetPort
  | none => 0

/-- ConfigStore.AddScanRange (config.go): materializes the defaults when the
stored list is empty, returns unchanged on a duplicate (start,end) pair,
otherwise appends. -/
def addScanRange (stored : List ScanRange) (sr : ScanRange) : List ScanRange :=
  let s := if stored.isEmpty then DefaultScanRanges else stored
  if s.any (fun existing => existing.start == sr.start && existing.stop == sr.stop) then s
  else s ++ [sr]

/-- ConfigStore.ScanRanges (config.go): defaults when none configured. -/
def scanRangesView (stored : List ScanRange) : List ScanRange :=
  if stored.isEmpty then DefaultScanRanges else stored

/-! ## Scanner (scanner source file, revision taking a ConfigStore)

`isOpen` and the HTTP GET of `probeHTTP` perform network calls; they are
modelled by an oracle environment `ScanEnv` answering, per port, whether the
TCP connect succeeds and what the HTTP probe observes. -/

/-- Outcome of the HTTP GET in `Scanner.probeHTTP`: either the request
errors, or it succeeds and we observe whether reading the (64 KB-limited)
body errored, the raw content of the first title-regex submatch when one
exists, and the `Server` response header (empty when absent). -/
inductive ProbeOutcome where
  | failure
  | success (readErr : Bool) (titleMatch : Option String) (serverHeader : String)
  deriving Repr, DecidableEq

/-- Oracle environment for one scan cycle. -/
structure ScanEnv where
  isOpen : Int → Bool
  probe : Int → ProbeOutcome
  now : Nat

/-- Scanner.probeHTTP (scanner source): on request failure the service is
downgraded to "tcp"; on success it is "http", the first title match (trimmed)
overwrites the title, and the `Server` header is used only when the title is
still empty afterwards. A body-read error skips both title steps. -/
def probeHTTP (outcome : ProbeOutcome) (dp : DiscoveredPort) : DiscoveredPort :=
  match outcome with
  | .failure => { dp with serviceName := "tcp" }
  | .success readErr titleMatch serverHeader =>
    let dp1 := { dp with serviceName := "http" }
    if readErr then dp1
    else
      let dp2 := match titleMatch with
        | some t => { dp1 with title := trimSpace t }
        | none => dp1
      if serverHeader != "" && dp2.title == "" then { dp2 with title := serverHeader }
      else dp2

/-- Ports enumerated by the Go loop `for port := r.Start; port <= r.End; port++`. -/
def rangePorts (r : ScanRange) : List Int :=
  (List.range (r.stop + 1 - r.start).toNat).map (fun (i : Nat) => r.start + (i : Int))

/-- The ports recorded in the `scannedPorts` set of `Scanner.scan`: every
port inside some configured range whose TCP connect succeeded. -/
def openPorts (env : ScanEnv) (ranges : List ScanRange) : List Int :=
  ranges.flatMap (fun r => (rangePorts r).filter env.isOpen)

/-- The scan-origin entry `Scanner.scan` builds for an open port. -/
def mkScanEntry (env : ScanEnv) (port : Int) : DiscoveredPort :=
  probeHTTP (env.probe port)
    { port := port, protocol := "tcp", serviceName := "", title := "",
      healthy := true, lastSeen := env.now, source := "scan", exePath := "" }

/-- The manual-origin entry `Scanner.scan` builds for a manual port that was
not already found by the range scan: the configured name is assigned first,
the probe runs only when the port is open, and the configured name is
restored when the probe left the title empty. -/
def manualEntry (env : ScanEnv) (mp : ManualPort) : DiscoveredPort :=
  let healthy := env.isOpen mp.port
  let base : DiscoveredPort :=
    { port := mp.port, protocol := "tcp", serviceName := "",
      title := if mp.name != "" then mp.name else "",
      healthy := healthy, lastSeen := env.now, source := "manual", exePath := "" }
  if healthy then
    let probed := probeHTTP (env.probe mp.port) base
    if probed.title == "" && mp.name != "" then { probed with title := mp.name }
    else probed
  else base

/-- Scanner.scan (scanner source): range entries in range-then-port order,
followed by the manual entries for manual ports not found by the range scan. -/
def scan (env : ScanEnv) (ranges : List ScanRange) (manualPorts : List ManualPort) :
    List DiscoveredPort :=
  (openPorts env ranges).map (mkScanEntry env) ++
    (manualPorts.filter (fun mp => !(openPorts env ranges).contains mp.port)).map
      (manualEntry env)

/-! ## Proxy routing (proxy source file) -/

/-- Split a char list at its last `':'`; `none` when no colon occurs. -/
def lastColonSplit : List Char → Option (List Char × List Char)
  | [] => none
  | c :: rest =>
    match lastColonSplit rest with
    | some (pre, post) => some (c :: pre, post)
    | none => if c == ':' then some ([], rest) else none

/-- Model of Go `net.SplitHostPort`: `none` models every error return
(missing port, too many colons, malformed brackets). -/
def splitHostPort (s : String) : Option (String × String) :=
  let cs := s.toList
  match lastColonSplit cs with
  | none => none
  | some (pre, post) =>
    if cs.head? == some '[' then
      match cs.findIdx? (fun c => c == ']') with
      | none => none
      | some closeIdx =>
        if closeIdx + 1 == cs.length then none
        else if closeIdx + 1 == pre.length then
          if ((cs.drop 1).contains '[' : Bool) then none
          else if ((cs.drop (closeIdx + 1)).contains ']' : Bool) then none
          else some (String.mk ((cs.take closeIdx).drop 1), String.mk post)
        else none
    else
      if (pre.contains ':' : Bool) then none
      else if (cs.contains '[' : Bool) then none
      else if (cs.contains ']' : Bool) then none
      else some (String.mk pre, String.mk post)

/-- The port-stripping step at the top of `ProxyHandler`: keep the host part
when `net.SplitHostPort` succeeds, otherwise leave the host unchanged. -/
def stripPort (host : String) : String :=
  match splitHostPort host with
  | some p => p.1
  | none => host

/-- extractSubdomain (proxy source): empty unless the host ends in
`"." ++ suffix`; then the remainder before that dot. -/
def extractSubdomain (host suffix : String) : String :=
  let dotSuffix := "." ++ suffix
  if !strEndsWith host dotSuffix then ""
  else
    let sub := trimSuffixStr host dotSuffix
    if sub == "" then "" else sub

/-- isWebSocketUpgrade (proxy source): the whole `Connection` header value
compares case-insensitively equal to "upgrade" and the whole `Upgrade`
header value to "websocket". -/
def isWebSocketUpgrade (connectionHeader upgradeHeader : String) : Bool :=
  asciiEqualFold connectionHeader "upgrade" && asciiEqualFold upgradeHeader "websocket"

/-- The routing decision `ProxyHandler` reaches for one request. -/
inductive RouteResult where
  | dashboard
  | redirect
  | websocketTunnel (targetPort : Int)
  | httpProxy (targetPort : Int)
  deriving Repr, DecidableEq

/-- ProxyHandler (proxy source): strip an optional port from the Host header,
extract the subdomain, send reserved/empty subdomains to the dashboard before
any mapping lookup, redirect unknown subdomains, and otherwise proxy
(tunnelling when the request is a WebSocket upgrade). -/
def proxyRoute (mappings : List DomainMapping) (suffix rawHost : String)
    (isUpgrade : Bool) : RouteResult :=
  let host := stripPort rawHost
  let subdomain := extractSubdomain host suffix
  if subdomain == "" || subdomain == "portgate" then .dashboard
  else
    let port := lookupPort mappings subdomain
    if port == 0 then .redirect
    else if isUpgrade then .websocketTunnel port
    else .httpProxy port

/-! ## Hub broadcast delivery (hub/dashboard source file, `Hub.Run`) -/

/-- A connected WebSocket client: its buffered outgoing channel contents and
the channel capacity (256 at creation in `DashboardHandler`). -/
structure WSClient where
  send : List String
  cap : Nat
  deriving Repr, DecidableEq

/-- The broadcast case of `Hub.Run`'s loop: for each registered client a
non-blocking channel send is attempted; when the buffer has space the message
is enqueued, otherwise the client's channel is closed and the client removed.
Returns (remaining clients, dropped clients). -/
def broadcastDeliver : List WSClient → String → List WSClient × List WSClient
  | [], _ => ([], [])
  | c :: rest, msg =>
    let r := broadcastDeliver rest msg
    if c.send.length < c.cap then
      ({ c with send := c.send ++ [msg] } :: r.1, r.2)
    else
      (r.1, c :: r.2)

/-! ## ProcessResolver, kernel-table variant (process_unix.go)

The filesystem reads are modelled by a snapshot `ProcFS` of the contents the
function may inspect: the two kernel socket tables and the `/proc` process
entries (with per-process fd symlink targets and exe symlink target);
`none` models a failing read. -/

/-- One directory entry of `/proc`: its name, whether it is a directory, the
readlink results of its fd entries (`none` models an unreadable fd dir, an
inner `none` a failing readlink), and the target of its `exe` symlink. -/
structure ProcEntry where
  name : String
  isDir : Bool
  fds : Option (List (Option String))
  exe : Option String
  deriving Repr, DecidableEq

/-- Snapshot of the parts of `/proc` read by `findExeByPort`. -/
structure ProcFS where
  netTcp : Option String
  netTcp6 : Option String
  procEntries : Option (List ProcEntry)
  deriving Repr, DecidableEq

/-- One hex digit, modelling `encoding/hex`. -/
def hexDigit (c : Char) : Option Nat :=
  if '0' ≤ c && c ≤ '9' then some (c.toNat - 48)
  else if 'a' ≤ c && c ≤ 'f' then some (c.toNat - 87)
  else if 'A' ≤ c && c ≤ 'F' then some (c.toNat - 55)
  else none

/-- Model of Go `hex.DecodeString`: fails on odd length or non-hex input. -/
def hexDecodeList : List Char → Option (List Nat)
  | [] => some []
  | [_] => none
  | a :: b :: rest =>
    match hexDigit a, hexDigit b, hexDecodeList rest with
    | some x, some y, some r => some ((x * 16 + y) :: r)
    | _, _, _ => none

/-- Model of Go `strings.Fields`: maximal runs of non-whitespace. -/
def fieldsList (cs : List Char) : List (List Char) :=
  let r := cs.foldr
    (fun c acc =>
      if isAsciiSpace c then ([], if acc.1.isEmpty then acc.2 else acc.1 :: acc.2)
      else (c :: acc.1, acc.2))
    ([], [])
  if r.1.isEmpty then r.2 else r.1 :: r.2

/-- Whether `strconv.Atoi` succeeds on the string (used by `findPIDByInode`
to select numeric `/proc` entries): optional sign followed by at least one
digit. -/
def atoiOk (s : String) : Bool :=
  match s.toList with
  | [] => false
  | c :: rest =>
    let digits := if c == '+' || c == '-' then rest else c :: rest
    !digits.isEmpty && digits.all (fun d => '0' ≤ d && d ≤ '9')

/-- The per-line body of `findInodeInFile`'s loop: a LISTEN row (state field
"0A") whose hex-encoded local port matches yields its inode field. -/
def inodeOfLine (line : List Char) (port : Int) : Option (List Char) :=
  let fs := fieldsList line
  if fs.length < 10 then none
  else if fs.getD 3 [] != "0A".toList then none
  else
    match splitFirst ':' (fs.getD 1 []) with
    | none => none
    | some p =>
      match hexDecodeList p.2 with
      | none => none
      | some bytes =>
        if bytes.length != 2 then none
        else if (Int.ofNat (bytes.getD 0 0 * 256 + bytes.getD 1 0)) == port then
          some (fs.getD 9 [])
        else none

/-- The line scan of `findInodeInFile`: first matching row wins. -/
def scanTcpLines (lines : List (List Char)) (port : Int) : String :=
  match lines with
  | [] => ""
  | l :: rest =>
    match inodeOfLine l port with
    | some inode => String.mk inode
    | none => scanTcpLines rest port

/-- findInodeInFile (process_unix.go): parse one kernel socket table,
skipping the header line; every failure collapses to "". -/
def findInodeInFile (content : Option String) (port : Int) : String :=
  match content with
  | none => ""
  | some data => scanTcpLines ((splitOnCharList '\n' data.toList).drop 1) port

/-- findSocketInode (process_unix.go): `/proc/net/tcp` first, then tcp6. -/
def findSocketInode (fs : ProcFS) (port : Int) : String :=
  let inode := findInodeInFile fs.netTcp port
  if inode != "" then inode
  else findInodeInFile fs.netTcp6 port

/-- The entry walk of `findPIDByInode`: numeric directories whose fd table
holds a symlink to the socket target. -/
def pidSearch (target : String) : List ProcEntry → String
  | [] => ""
  | e :: rest =>
    if !e.isDir then pidSearch target rest
    else if !atoiOk e.name then pidSearch target rest
    else
      match e.fds with
      | none => pidSearch target rest
      | some fds =>
        if fds.any (fun link => link == some target) then e.name
        else pidSearch target rest

/-- findPIDByInode (process_unix.go). -/
def findPIDByInode (fs : ProcFS) (inode : String) : String :=
  match fs.procEntries with
  | none => ""
  | some entries => pidSearch ("socket:[" ++ inode ++ "]") entries

/-- The `os.Readlink(/proc/<pid>/exe)` step, read from the snapshot. -/
def readExeLink (fs : ProcFS) (pid : String) : Option String :=
  match fs.procEntries with
  | none => none
  | some entries =>
    match entries.find? (fun e => e.name == pid) with
    | none => none
    | some e => e.exe

/-- findExeByPort (process_unix.go): inode, then pid, then exe symlink,
stripping a trailing " (deleted)" marker; every failure collapses to "". -/
def findExeByPort (fs : ProcFS) (port : Int) : String :=
  let inode := findSocketInode fs port
  if inode == "" then ""
  else
    let pid := findPIDByInode fs inode
    if pid == "" then ""
    else
      match readExeLink fs pid with
      | none => ""
      | some exe => trimSuffixStr exe " (deleted)"

/-! ## Dashboard API handlers (dashboard source file, `DashboardHandler`) -/

/-- The POST body for creating a mapping (types.go `MappingRequest`). -/
structure MappingRequest where
  domain : String
  port : Int
  deriving Repr, DecidableEq

/-- The POST body for registering a manual port (types.go `PortRequest`). -/
structure PortRequest where
  port : Int
  name : String
  path : String
  deriving Repr, DecidableEq

/-- The POST body for adding a scan range (types.go `ScanRangeRequest`). -/
structure ScanRangeRequest where
  start : Int
  stop : Int
  deriving Repr, DecidableEq

/-- The domain normalization performed by the POST /api/mappings handler:
trim whitespace, lowercase, strip one trailing ".localhost" (the literal
string — the configured domain suffix is not consulted). -/
def normalizeMappingDomain (s : String) : String :=
  trimSuffixStr (toLowerStr (trimSpace s)) ".localhost"

/-- POST /api/mappings (dashboard source): 400 when the raw domain is empty
or the port is 0, then 400 when the normalized domain is reserved or empty;
otherwise the mapping is stored with no port-range validation. The error
strings are the handler's response bodies. -/
def mappingsPost (now : Nat) (req : MappingRequest) : Except String DomainMapping :=
  if req.domain == "" || req.port == 0 then .error "domain and port required"
  else if normalizeMappingDomain req.domain == "portgate" ||
      normalizeMappingDomain req.domain == "" then .error "reserved domain"
  else .ok { domain := normalizeMappingDomain req.domain, targetPort := req.port,
             createdAt := now, system := false }

/-- POST /api/ports (dashboard source): the port must lie in 1–65535. -/
def portsPost (req : PortRequest) : Except String ManualPort :=
  if req.port < 1 || req.port > 65535 then .error "port must be 1-65535"
  else .ok { port := req.port, name := req.name, path := req.path }

/-- POST /api/scan-ranges (dashboard source): bounds and order validated. -/
def scanRangesPost (req : ScanRangeRequest) : Except String ScanRange :=
  if req.start < 1 || req.stop > 65535 || req.start > req.stop then .error "invalid range"
  else .ok { start := req.start, stop := req.stop }

/-! ## Specification-side definition used by the C4 comparison -/

/-- Spec-side reading of the upgrade rule: the `Connection` header is split
on commas into tokens, each trimmed, and the token set must contain
"upgrade" case-insensitively. Written from the specification text, to be
compared with the code's `isWebSocketUpgrade`. -/
def connectionTokensContainUpgrade (connectionHeader : String) : Bool :=
  ((splitOnCharList ',' connectionHeader.toList).map trimList).any
    (fun t => t.map foldChar == "upgrade".toList)

/-! ## Helper lemmas -/

theorem probeHTTP_port (o : ProbeOutcome) (dp : DiscoveredPort) :
    (probeHTTP o dp).port = dp.port := by
  cases o with
  | failure => rfl
  | success readErr titleMatch serverHeader =>
    simp only [probeHTTP]
    cases readErr <;> cases titleMatch <;> simp <;> split <;> rfl

theorem probeHTTP_source (o : ProbeOutcome) (dp : DiscoveredPort) :
    (probeHTTP o dp).source = dp.source := by
  cases o with
  | failure => rfl
  | success readErr titleMatch serverHeader =>
    simp only [probeHTTP]
    cases readErr <;> cases titleMatch <;> simp <;> split <;> rfl

theorem probeHTTP_exePath (o : ProbeOutcome) (dp : DiscoveredPort) :
    (probeHTTP o dp).exePath = dp.exePath := by
  cases o with
  | failure => rfl
  | success readErr titleMatch serverHeader =>
    simp only [probeHTTP]
    cases readErr <;> cases titleMatch <;> simp <;> split <;> rfl

theorem mkScanEntry_port (env : ScanEnv) (p : Int) : (mkScanEntry env p).port = p := by
  simp [mkScanEntry, probeHTTP_port]

theorem mkScanEntry_source (env : ScanEnv) (p : Int) :
    (mkScanEntry env p).source = "scan" := by
  simp [mkScanEntry, probeHTTP_source]

theorem mkScanEntry_exePath (env : ScanEnv) (p : Int) :
    (mkScanEntry env p).exePath = "" := by
  simp [mkScanEntry, probeHTTP_exePath]

theorem manualEntry_port (env : ScanEnv) (mp : ManualPort) :
    (manualEntry env mp).port = mp.port := by
  simp only [manualEntry]
  repeat' split
  all_goals simp [probeHTTP_port]

theorem manualEntry_source (env : ScanEnv) (mp : ManualPort) :
    (manualEntry env mp).source = "manual" := by
  simp only [manualEntry]
  repeat' split
  all_goals simp [probeHTTP_source]

theorem manualEntry_exePath (env : ScanEnv) (mp : ManualPort) :
    (manualEntry env mp).exePath = "" := by
  simp only [manualEntry]
  repeat' split
  all_goals simp [probeHTTP_exePath]

/-! ## C5: AddMapping is last-write-wins -/

/-- C5: adding a mapping leaves exactly one mapping for its domain, carrying
the newly supplied target port, and the mappings of every other domain are
exactly what they were before. -/
theorem addMapping_lastWriteWins (ms : List DomainMapping) (m : DomainMapping) :
    (addMapping ms m).filter (fun e => e.domain == m.domain) = [m] ∧
    ∀ d : String, d ≠ m.domain →
      (addMapping ms m).filter (fun e => e.domain == d) =
        ms.filter (fun e => e.domain == d) := by
  constructor
  · simp only [addMapping, List.filter_append, List.filter_filter]
    have h1 : ms.filter (fun a => (a.domain == m.domain) && (a.domain != m.domain)) = [] := by
      apply List.filter_eq_nil_iff.mpr
      intro a _
      by_cases h : a.domain = m.domain <;> simp [h]
    rw [h1]
    simp
  · intro d hd
    simp only [addMapping, List.filter_append, List.filter_filter]
    have h2 : List.filter (fun e => e.domain == d) [m] = [] := by
      simp only [List.filter, beq_iff_eq]
      have : (m.domain == d) = false := by
        simp only [beq_eq_false_iff_ne]
        exact fun h => hd h.symm
      simp [this]
    rw [h2, List.append_nil]
    apply List.filter_congr
    intro a _
    by_cases h : a.domain = d
    · have : a.domain ≠ m.domain := by rw [h]; exact hd
      simp [h, this, hd]
    · simp [h]

/-- Witness for C5 at the spec's own test vector. -/
theorem addMapping_lastWriteWins_witness :
    (addMapping [⟨"myapp", 3000, 0, false⟩, ⟨"other", 1, 0, false⟩]
        ⟨"myapp", 4000, 1, false⟩).filter (fun e => e.domain == "myapp") =
      [⟨"myapp", 4000, 1, false⟩] ∧
    (addMapping [⟨"myapp", 3000, 0, false⟩, ⟨"other", 1, 0, false⟩]
        ⟨"myapp", 4000, 1, false⟩).filter (fun e => e.domain == "other") =
      [⟨"other", 1, 0, false⟩] := by
  have h := addMapping_lastWriteWins
    [⟨"myapp", 3000, 0, false⟩, ⟨"other", 1, 0, false⟩] ⟨"myapp", 4000, 1, false⟩
  refine ⟨h.1, ?_⟩
  rw [h.2 "other" (by decide)]
  decide

/-! ## C8: AddScanRange suppresses duplicate (start,end) pairs -/

/-- Number of stored ranges with the same (start,end) pair as `sr`. -/
def pairCount (l : List ScanRange) (sr : ScanRange) : Nat :=
  l.countP (fun e => e.start == sr.start && e.stop == sr.stop)

theorem pairCount_defaults_le_one (sr : ScanRange) :
    pairCount DefaultScanRanges sr ≤ 1 := by
  simp only [pairCount, DefaultScanRanges, List.countP_cons, List.countP_nil]
  split_ifs with h1 h2 h3 h4 <;>
    simp_all [Bool.and_eq_true, beq_iff_eq] <;> omega

theorem addScanRange_pairCount (stored : List ScanRange) (sr : ScanRange)
    (h : pairCount stored sr ≤ 1) :
    pairCount (addScanRange stored sr) sr = 1 := by
  have key : ∀ s : List ScanRange, pairCount s sr ≤ 1 →
      pairCount (if s.any (fun existing =>
          existing.start == sr.start && existing.stop == sr.stop) then s
        else s ++ [sr]) sr = 1 := by
    intro s hs
    by_cases ha : s.any (fun existing =>
        existing.start == sr.start && existing.stop == sr.stop) = true
    · rw [if_pos ha]
      have hpos : 0 < pairCount s sr := by
        rw [pairCount, List.countP_pos_iff]
        exact List.any_eq_true.mp ha
      omega
    · rw [if_neg ha]
      have hz : pairCount s sr = 0 := by
        rw [pairCount, List.countP_eq_zero]
        intro a hm hp
        exact ha (List.any_eq_true.mpr ⟨a, hm, hp⟩)
      rw [pairCount, List.countP_append, ← pairCount, hz]
      simp [List.countP_cons]
  simp only [addScanRange]
  by_cases he : stored.isEmpty = true
  · rw [if_pos he]
    exact key DefaultScanRanges (pairCount_defaults_le_one sr)
  · rw [if_neg he]
    exact key stored h

/-- C8: starting from a store holding at most one copy of the pair (the
invariant the mutation API maintains), adding the same (start,end) twice
leaves exactly one stored range with that pair, and the second add leaves
the stored list unchanged. -/
theorem addScanRange_duplicate_suppressed (stored : List ScanRange) (sr : ScanRange)
    (h : pairCount stored sr ≤ 1) :
    pairCount (addScanRange stored sr) sr = 1 ∧
    addScanRange (addScanRange stored sr) sr = addScanRange stored sr := by
  have h1 := addScanRange_pairCount stored sr h
  refine ⟨h1, ?_⟩
  have hne : (addScanRange stored sr).isEmpty = false := by
    rw [List.isEmpty_eq_false_iff_exists_mem]
    have : 0 < pairCount (addScanRange stored sr) sr := by omega
    rw [pairCount, List.countP_pos_iff] at this
    obtain ⟨a, hm, _⟩ := this
    exact ⟨a, hm⟩
  have hany : (addScanRange stored sr).any
      (fun existing => existing.start == sr.start && existing.stop == sr.stop) = true := by
    rw [List.any_eq_true]
    have : 0 < pairCount (addScanRange stored sr) sr := by omega
    rw [pairCount, List.countP_pos_iff] at this
    exact this
  conv_lhs => rw [addScanRange]
  simp [hne, hany]

/-- Witness for C8: two adds of 9000–9999 to an empty store leave exactly
one stored copy of that range. -/
theorem addScanRange_duplicate_suppressed_witness :
    pairCount (addScanRange [] ⟨9000, 9999⟩) ⟨9000, 9999⟩ = 1 ∧
    addScanRange (addScanRange [] ⟨9000, 9999⟩) ⟨9000, 9999⟩ =
      addScanRange [] ⟨9000, 9999⟩ :=
  addScanRange_duplicate_suppressed [] ⟨9000, 9999⟩ (by decide)

/-! ## C6: Hub broadcast backpressure -/

/-- C6: processing one broadcast enqueues the message for exactly the
registered subscribers whose bounded queue has space (independently of any
other subscriber's state), and drops — removes from membership — exactly the
subscribers whose queue is full. -/
theorem hub_broadcast_backpressure (clients : List WSClient) (msg : String) :
    (broadcastDeliver clients msg).1 =
      clients.filterMap (fun c =>
        if c.send.length < c.cap then some { c with send := c.send ++ [msg] } else none) ∧
    (broadcastDeliver clients msg).2 =
      clients.filter (fun c => decide (c.cap ≤ c.send.length)) ∧
    ∀ c ∈ clients,
      (c.send.length < c.cap →
        { c with send := c.send ++ [msg] } ∈ (broadcastDeliver clients msg).1) ∧
      (c.cap ≤ c.send.length → c ∈ (broadcastDeliver clients msg).2) := by
  have hmain : (broadcastDeliver clients msg).1 =
      clients.filterMap (fun c =>
        if c.send.length < c.cap then some { c with send := c.send ++ [msg] } else none) ∧
      (broadcastDeliver clients msg).2 =
        clients.filter (fun c => decide (c.cap ≤ c.send.length)) := by
    induction clients with
    | nil => exact ⟨rfl, rfl⟩
    | cons c rest ih =>
      simp only [broadcastDeliver, List.filterMap_cons, List.filter_cons]
      by_cases hc : c.send.length < c.cap
      · have : (decide (c.cap ≤ c.send.length)) = false := by
          simp [decide_eq_false_iff_not]; omega
        simp [hc, this, ih.1, ih.2]
      · have : (decide (c.cap ≤ c.send.length)) = true := by
          simp [decide_eq_true_eq]; omega
        simp [hc, this, ih.1, ih.2]
  refine ⟨hmain.1, hmain.2, ?_⟩
  intro c hc
  constructor
  · intro hsp
    rw [hmain.1, List.mem_filterMap]
    exact ⟨c, hc, by simp [hsp]⟩
  · intro hfull
    rw [hmain.2]
    apply List.mem_filter_of_mem hc
    simpa using hfull

/-- Witness for C6: with a stalled (full-queue) subscriber and an active one,
the active subscriber still receives the broadcast and the stalled one is
dropped. -/
theorem hub_broadcast_backpressure_witness :
    (⟨["m"], 1⟩ : WSClient) ∈ (broadcastDeliver [⟨["a"], 1⟩, ⟨[], 1⟩] "m").1 ∧
    (⟨["a"], 1⟩ : WSClient) ∈ (broadcastDeliver [⟨["a"], 1⟩, ⟨[], 1⟩] "m").2 := by
  have h := hub_broadcast_backpressure [⟨["a"], 1⟩, ⟨[], 1⟩] "m"
  exact ⟨(h.2.2 ⟨[], 1⟩ (by decide)).1 (by decide),
         (h.2.2 ⟨["a"], 1⟩ (by decide)).2 (by decide)⟩

/-! ## C3: the scanner never populates exePath -/

/-- C3 (divergence witness): for every environment, range set and manual
list, every entry of the produced snapshot has an empty `exePath` — the scan
loop contains no call to the process resolver, so the resolver's result is
never stored. -/
theorem scan_exePath_always_empty (env : ScanEnv) (ranges : List ScanRange)
    (manualPorts : List ManualPort) :
    ((scan env ranges manualPorts).all (fun e => e.exePath == "")) = true := by
  rw [List.all_eq_true]
  intro e he
  simp only [scan, List.mem_append, List.mem_map] at he
  rcases he with ⟨p, _, rfl⟩ | ⟨mp, _, rfl⟩
  · simp [mkScanEntry_exePath]
  · simp [manualEntry_exePath]

/-! ## C2: snapshot uniqueness and scan-over-manual precedence -/

theorem mem_rangePorts (r : ScanRange) (p : Int) :
    p ∈ rangePorts r ↔ r.start ≤ p ∧ p ≤ r.stop := by
  rw [rangePorts]
  constructor
  · intro hp
    obtain ⟨i, hi, rfl⟩ := List.mem_map.mp hp
    rw [List.mem_range] at hi
    omega
  · rintro ⟨h1, h2⟩
    refine List.mem_map.mpr ⟨(p - r.start).toNat, ?_, ?_⟩
    · rw [List.mem_range]; omega
    · omega

theorem nodup_rangePorts (r : ScanRange) : (rangePorts r).Nodup := by
  rw [rangePorts]
  apply List.Nodup.map ?_ (List.nodup_range _)
  intro a b hab
  simp only at hab
  omega

theorem nodup_openPorts (env : ScanEnv) (ranges : List ScanRange)
    (hdisj : ranges.Pairwise (fun r1 r2 => ∀ p : Int,
      ¬((r1.start ≤ p ∧ p ≤ r1.stop) ∧ (r2.start ≤ p ∧ p ≤ r2.stop)))) :
    (openPorts env ranges).Nodup := by
  rw [openPorts, show (ranges.flatMap fun r => (rangePorts r).filter env.isOpen)
    = (ranges.map fun r => (rangePorts r).filter env.isOpen).flatten from rfl]
  rw [List.nodup_flatten]
  constructor
  · intro l hl
    simp only [List.mem_map] at hl
    obtain ⟨r, _, rfl⟩ := hl
    exact (nodup_rangePorts r).filter _
  · apply List.Pairwise.map _ _ hdisj
    intro r1 r2 hr p hp1 hp2
    have m1 := (mem_rangePorts r1 p).mp (List.mem_of_mem_filter hp1)
    have m2 := (mem_rangePorts r2 p).mp (List.mem_of_mem_filter hp2)
    exact hr p ⟨m1, m2⟩

theorem scan_map_port (env : ScanEnv) (ranges : List ScanRange)
    (manualPorts : List ManualPort) :
    (scan env ranges manualPorts).map (fun e => e.port) =
      openPorts env ranges ++
        (manualPorts.filter
          (fun mp => !(openPorts env ranges).contains mp.port)).map
          (fun mp => mp.port) := by
  rw [scan, List.map_append, List.map_map, List.map_map]
  congr 1
  · simp only [Function.comp_def]
    rw [List.map_congr_left (fun a _ => mkScanEntry_port env a)]
    exact List.map_id _
  · simp only [Function.comp_def]
    exact List.map_congr_left (fun mp _ => manualEntry_port env mp)

/-- C2 (amended): when the configured scan ranges are pairwise disjoint (as
the defaults are) and the manual list has pairwise distinct ports (the
invariant `AddManualPort` maintains), the snapshot holds at most one entry
per port; and, unconditionally — for every range configuration, overlapping
ranges included — for a manual port that the range scan found open, every
snapshot entry with that port number is a scan-origin entry: the manual
entry is suppressed for that cycle. -/
theorem scan_snapshot_unique_amended (env : ScanEnv) (ranges : List ScanRange)
    (manualPorts : List ManualPort) :
    (ranges.Pairwise (fun r1 r2 => ∀ p : Int,
        ¬((r1.start ≤ p ∧ p ≤ r1.stop) ∧ (r2.start ≤ p ∧ p ≤ r2.stop))) →
      (manualPorts.map (fun mp => mp.port)).Nodup →
      ((scan env ranges manualPorts).map (fun e => e.port)).Nodup) ∧
    ∀ mp ∈ manualPorts, mp.port ∈ openPorts env ranges →
      ∀ e ∈ scan env ranges manualPorts, e.port = mp.port → e.source = "scan" := by
  constructor
  · intro hdisj hnodup
    rw [scan_map_port]
    apply List.Nodup.append (nodup_openPorts env ranges hdisj)
    · apply List.Nodup.sublist _ hnodup
      exact (List.filter_sublist manualPorts).map _
    · intro a ha hb
      simp only [List.mem_map, List.mem_filter] at hb
      obtain ⟨mp, ⟨_, hcon⟩, rfl⟩ := hb
      rw [Bool.not_eq_eq_eq_not, Bool.not_true] at hcon
      have htrue : (openPorts env ranges).contains mp.port = true :=
        List.elem_iff.mpr ha
      rw [hcon] at htrue
      cases htrue
  · intro mp _ hopen e he hport
    simp only [scan, List.mem_append, List.mem_map] at he
    rcases he with ⟨p, _, rfl⟩ | ⟨mp2, hmp2, rfl⟩
    · exact mkScanEntry_source env p
    · exfalso
      simp only [List.mem_filter] at hmp2
      have hcon := hmp2.2
      rw [Bool.not_eq_eq_eq_not, Bool.not_true] at hcon
      rw [manualEntry_port] at hport
      rw [hport] at hcon
      have htrue : (openPorts env ranges).contains mp.port = true :=
        List.elem_iff.mpr hopen
      rw [hcon] at htrue
      cases htrue

/-- Witness for the amended C2: disjoint ranges with one port (2) open that
is also manually registered give a duplicate-free snapshot whose entries for
that port are scan-origin; the precedence part is also exercised at the
overlapping ranges of the counterexample configuration. -/
theorem scan_snapshot_unique_amended_witness :
    ((scan ⟨fun p => p == 2, fun _ => .failure, 0⟩ [⟨1, 2⟩, ⟨3, 4⟩]
        [⟨2, "db", ""⟩]).map (fun e => e.port)).Nodup ∧
    (∀ e ∈ scan ⟨fun p => p == 2, fun _ => .failure, 0⟩ [⟨1, 2⟩, ⟨3, 4⟩]
        [⟨2, "db", ""⟩], e.port = 2 → e.source = "scan") ∧
    ∀ e ∈ scan ⟨fun p => p == 2, fun _ => .failure, 0⟩ [⟨1, 2⟩, ⟨2, 3⟩]
        [⟨2, "db", ""⟩], e.port = 2 → e.source = "scan" := by
  have h := scan_snapshot_unique_amended ⟨fun p => p == 2, fun _ => .failure, 0⟩
    [⟨1, 2⟩, ⟨3, 4⟩] [⟨2, "db", ""⟩]
  have h2 := scan_snapshot_unique_amended ⟨fun p => p == 2, fun _ => .failure, 0⟩
    [⟨1, 2⟩, ⟨2, 3⟩] [⟨2, "db", ""⟩]
  exact ⟨h.1 (by simp; omega) (by simp),
         h.2 ⟨2, "db", ""⟩ (by simp) (by decide),
         h2.2 ⟨2, "db", ""⟩ (by simp) (by decide)⟩

/-- C2 counterexample: two overlapping ranges — both storable through
`AddScanRange`, which rejects only identical (start,end) pairs — make the
snapshot contain two entries for the same open port, so the per-snapshot
uniqueness invariant fails as stated. -/
theorem scan_snapshot_unique_counterexample :
    addScanRange [⟨1, 2⟩] ⟨2, 3⟩ = [⟨1, 2⟩, ⟨2, 3⟩] ∧
    (scan ⟨fun p => p == 2, fun _ => .failure, 0⟩ [⟨1, 2⟩, ⟨2, 3⟩] []).map
      (fun e => e.port) = [2, 2] ∧
    ¬ ((scan ⟨fun p => p == 2, fun _ => .failure, 0⟩ [⟨1, 2⟩, ⟨2, 3⟩] []).map
      (fun e => e.port)).Nodup := by
  refine ⟨by decide, by decide, ?_⟩
  intro h
  rw [show (scan ⟨fun p => p == 2, fun _ => .failure, 0⟩ [⟨1, 2⟩, ⟨2, 3⟩] []).map
      (fun e => e.port) = [2, 2] from by decide] at h
  simp at h

/-! ## C7: title precedence for manual ports -/

theorem probeHTTP_title (o : ProbeOutcome) (dp : DiscoveredPort) :
    (probeHTTP o dp).title =
      match o with
      | .failure => dp.title
      | .success true _ _ => dp.title
      | .success false (some t) server =>
        if server != "" && trimSpace t == "" then server else trimSpace t
      | .success false none server =>
        if server != "" && dp.title == "" then server else dp.title := by
  cases o with
  | failure => rfl
  | success readErr titleMatch serverHeader =>
    cases readErr with
    | true => rfl
    | false =>
      cases titleMatch with
      | some t =>
        simp only [probeHTTP]
        split <;> split <;> simp_all
      | none =>
        simp only [probeHTTP]
        split <;> split <;> simp_all

/-- C7 (amended): for a manual port that is open and probed in a cycle,
the title is decided as the code does: a title tag that trims nonempty wins;
a tag that trims empty falls back to the Server header, then to the
configured name; with no tag at all, a nonempty configured name — assigned
before the probe — takes precedence and the Server header is used only when
the name is empty; probe failure or a body-read error leaves the name. -/
theorem manualEntry_title_amended (env : ScanEnv) (mp : ManualPort)
    (hopen : env.isOpen mp.port = true) :
    (env.probe mp.port = .failure → (manualEntry env mp).title = mp.name) ∧
    (∀ tm server, env.probe mp.port = .success true tm server →
      (manualEntry env mp).title = mp.name) ∧
    (∀ t server, env.probe mp.port = .success false (some t) server →
      trimSpace t ≠ "" → (manualEntry env mp).title = trimSpace t) ∧
    (∀ t server, env.probe mp.port = .success false (some t) server →
      trimSpace t = "" →
      (manualEntry env mp).title = (if server ≠ "" then server else mp.name)) ∧
    (∀ server, env.probe mp.port = .success false none server →
      (manualEntry env mp).title =
        (if mp.name ≠ "" then mp.name
         else if server ≠ "" then server else "")) := by
  have hbase : (if mp.name != "" then mp.name else "") = mp.name := by
    by_cases hn : mp.name = "" <;> simp [hn]
  have hman : ∀ pr : DiscoveredPort,
      probeHTTP (env.probe mp.port)
        { port := mp.port, protocol := "tcp", serviceName := "",
          title := if mp.name != "" then mp.name else "",
          healthy := env.isOpen mp.port, lastSeen := env.now,
          source := "manual", exePath := "" } = pr →
      (manualEntry env mp).title =
        (if pr.title == "" && mp.name != "" then mp.name else pr.title) := by
    intro pr hpr
    rw [manualEntry]
    rw [if_pos (by rw [hopen])]
    rw [hpr]
    split
    · next hcond =>
      rw [if_pos hcond]
    · next hcond =>
      rw [if_neg hcond]
  refine ⟨?_, ?_, ?_, ?_, ?_⟩
  · intro hp
    have := hman _ rfl
    rw [this, probeHTTP_title, hp]
    simp only [hbase]
    by_cases hn : mp.name = "" <;> simp [hn]
  · intro tm server hp
    have := hman _ rfl
    rw [this, probeHTTP_title, hp]
    simp only [hbase]
    by_cases hn : mp.name = "" <;> simp [hn]
  · intro t server hp ht
    have := hman _ rfl
    rw [this, probeHTTP_title, hp]
    simp only [hbase]
    have h1 : (trimSpace t == "") = false := by
      simp [ht]
    rw [h1]
    simp [ht]
  · intro t server hp ht
    have := hman _ rfl
    rw [this, probeHTTP_title, hp]
    simp only [hbase]
    by_cases hs : server = ""
    · simp only [hs, ht]
      by_cases hn : mp.name = "" <;> simp [hn, hs, ht]
    · simp [hs, ht]
  · intro server hp
    have := hman _ rfl
    rw [this, probeHTTP_title, hp]
    simp only [hbase]
    by_cases hn : mp.name = ""
    · by_cases hs : server = "" <;> simp [hn, hs]
    · simp [hn]

/-- Witness for the amended C7: a named manual port, open, probe success
with a nonempty trimmed title tag — the tag content becomes the title. -/
theorem manualEntry_title_amended_witness :
    (manualEntry ⟨fun _ => true, fun _ => .success false (some " My App ") "nginx", 0⟩
      ⟨9090, "prometheus", ""⟩).title = trimSpace " My App " :=
  (manualEntry_title_amended
      ⟨fun _ => true, fun _ => .success false (some " My App ") "nginx", 0⟩
      ⟨9090, "prometheus", ""⟩ (by decide)).2.2.1
    " My App " "nginx" rfl (by decide)

/-- C7 counterexample: a named manual port whose probe succeeds with no
title tag but a Server header present keeps the configured name as title;
the claim as stated demands the Server header. -/
theorem manualEntry_title_counterexample :
    (manualEntry ⟨fun _ => true, fun _ => .success false none "nginx", 0⟩
      ⟨9090, "prometheus", ""⟩).title = "prometheus" ∧
    "prometheus" ≠ "nginx" := by
  exact ⟨by decide, by decide⟩

/-! ## C9: findExeByPort is total and fail-soft -/

/-- C9: `findExeByPort` is a total function of the `/proc` snapshot — it
returns a string in every case — and each failure mode (unreadable socket
tables / no matching LISTEN row, no process owning the socket inode, an
unreadable exe link) collapses to the empty string; a nonempty result arises
only from the full success path, as the exe link target with the
" (deleted)" marker stripped. -/
theorem findExeByPort_failSoft (fs : ProcFS) (port : Int) :
    (fs.netTcp = none → fs.netTcp6 = none → findExeByPort fs port = "") ∧
    (findSocketInode fs port = "" → findExeByPort fs port = "") ∧
    (findPIDByInode fs (findSocketInode fs port) = "" → findExeByPort fs port = "") ∧
    (readExeLink fs (findPIDByInode fs (findSocketInode fs port)) = none →
      findExeByPort fs port = "") ∧
    (findExeByPort fs port ≠ "" →
      ∃ exe, readExeLink fs (findPIDByInode fs (findSocketInode fs port)) = some exe ∧
        findExeByPort fs port = trimSuffixStr exe " (deleted)") := by
  have hinode : fs.netTcp = none → fs.netTcp6 = none →
      findSocketInode fs port = "" := by
    intro h1 h2
    rw [findSocketInode, h1, h2]
    rfl
  have hempty : findSocketInode fs port = "" → findExeByPort fs port = "" := by
    intro h
    rw [findExeByPort, h]
    rfl
  refine ⟨fun h1 h2 => hempty (hinode h1 h2), hempty, ?_, ?_, ?_⟩
  · intro hpid
    by_cases hi : findSocketInode fs port = ""
    · exact hempty hi
    · rw [findExeByPort, if_neg (by simp [hi]), if_pos (by simp [hpid])]
  · intro hre
    by_cases hi : findSocketInode fs port = ""
    · exact hempty hi
    · by_cases hp : findPIDByInode fs (findSocketInode fs port) = ""
      · rw [findExeByPort, if_neg (by simp [hi]), if_pos (by simp [hp])]
      · rw [findExeByPort, if_neg (by simp [hi]), if_neg (by simp [hp]), hre]
  · intro hne
    by_cases hi : findSocketInode fs port = ""
    · exact absurd (hempty hi) hne
    · by_cases hp : findPIDByInode fs (findSocketInode fs port) = ""
      · exfalso
        apply hne
        rw [findExeByPort, if_neg (by simp [hi]), if_pos (by simp [hp])]
      · cases hre : readExeLink fs (findPIDByInode fs (findSocketInode fs port)) with
        | none =>
          exfalso
          apply hne
          rw [findExeByPort, if_neg (by simp [hi]), if_neg (by simp [hp]), hre]
        | some exe =>
          refine ⟨exe, rfl, ?_⟩
          rw [findExeByPort, if_neg (by simp [hi]), if_neg (by simp [hp]), hre]

/-- Witness for C9 at an empty snapshot: both tables unreadable collapses to
the empty string. -/
theorem findExeByPort_failSoft_witness :
    findExeByPort ⟨none, none, none⟩ 80 = "" :=
  (findExeByPort_failSoft ⟨none, none, none⟩ 80).1 rfl rfl

/-! ## C10: mapping-creation normalization and missing port-range check -/

/-- C10: POST /api/mappings rejects (400) exactly when the trim/lowercase/
strip-".localhost" normalization of the domain is empty or "portgate", or
the port is 0; an accepted request stores the normalized domain with the
request port unchanged — no 1–65535 range check, so negative ports and
ports above 65535 are stored — while manual-port and scan-range creation do
validate their ranges. -/
theorem mappingsPost_validation :
    (∀ (now : Nat) (req : MappingRequest),
      (∃ e, mappingsPost now req = .error e) ↔
        (normalizeMappingDomain req.domain = "" ∨
         normalizeMappingDomain req.domain = "portgate" ∨ req.port = 0)) ∧
    (∀ (now : Nat) (req : MappingRequest) (m : DomainMapping),
      mappingsPost now req = .ok m →
        m.domain = normalizeMappingDomain req.domain ∧ m.targetPort = req.port) ∧
    (∀ (now : Nat) (req : MappingRequest),
      req.port ≠ 0 → normalizeMappingDomain req.domain ≠ "" →
      normalizeMappingDomain req.domain ≠ "portgate" →
      mappingsPost now req = .ok ⟨normalizeMappingDomain req.domain, req.port, now, false⟩) ∧
    (∀ req : PortRequest, (req.port < 1 ∨ req.port > 65535) →
      portsPost req = .error "port must be 1-65535") ∧
    (∀ req : ScanRangeRequest,
      (req.start < 1 ∨ req.stop > 65535 ∨ req.start > req.stop) →
      scanRangesPost req = .error "invalid range") := by
  have hnorm0 : normalizeMappingDomain "" = "" := by decide
  refine ⟨?_, ?_, ?_, ?_, ?_⟩
  · intro now req
    constructor
    · rintro ⟨e, he⟩
      rw [mappingsPost] at he
      split_ifs at he with h1 h2
      · rcases (by simpa using h1 : req.domain = "" ∨ req.port = 0) with hd | hp
        · left
          rw [hd, hnorm0]
        · right; right; exact hp
      · rcases (by simpa using h2 :
            normalizeMappingDomain req.domain = "portgate" ∨
            normalizeMappingDomain req.domain = "") with hg | hz
        · right; left; exact hg
        · left; exact hz
    · intro h
      rw [mappingsPost]
      split_ifs with h1 h2
      · exact ⟨_, rfl⟩
      · exact ⟨_, rfl⟩
      · exfalso
        simp only [Bool.or_eq_true, beq_iff_eq] at h1 h2
        push_neg at h1 h2
        rcases h with hz | hg | hp
        · have hd : req.domain ≠ "" := h1.1
          exact h2.2 hz
        · exact h2.1 hg
        · exact h1.2 hp
  · intro now req m hm
    rw [mappingsPost] at hm
    split_ifs at hm
    cases hm
    exact ⟨rfl, rfl⟩
  · intro now req hp hz hg
    rw [mappingsPost]
    have hd : req.domain ≠ "" := by
      intro hcon
      apply hz
      rw [hcon, hnorm0]
    rw [if_neg (by simp [hd, hp]), if_neg (by simp [hz, hg])]
  · intro req h
    rw [portsPost, if_pos (by rcases h with h1 | h1 <;> simp [h1])]
  · intro req h
    rw [scanRangesPost, if_pos (by rcases h with h1 | h1 | h1 <;> simp [h1])]

/-- Witness for C10: `{domain: " MyApp.localhost ", port: -5}` is accepted
and stored as domain "myapp" with port -5, while the same port is rejected
by manual-port registration. -/
theorem mappingsPost_validation_witness :
    mappingsPost 0 ⟨" MyApp.localhost ", -5⟩ = .ok ⟨"myapp", -5, 0, false⟩ ∧
    portsPost ⟨-5, "x", ""⟩ = .error "port must be 1-65535" ∧
    scanRangesPost ⟨0, 70000⟩ = .error "invalid range" := by
  have h := mappingsPost_validation
  refine ⟨?_, ?_, ?_⟩
  · have hr := h.2.2.1 0 ⟨" MyApp.localhost ", -5⟩ (by decide) (by decide) (by decide)
    have hn : normalizeMappingDomain " MyApp.localhost " = "myapp" := by decide
    rw [hr]
    simp only [hn]
  · exact h.2.2.2.1 ⟨-5, "x", ""⟩ (by decide)
  · exact h.2.2.2.2 ⟨0, 70000⟩ (by decide)

/-! ## C4: WebSocket upgrade detection -/

theorem splitOnCharList_of_not_mem (sep : Char) (cs : List Char) (h : sep ∉ cs) :
    splitOnCharList sep cs = [cs] := by
  induction cs with
  | nil => rfl
  | cons c rest ih =>
    have hc : (c == sep) = false := by
      simp only [beq_eq_false_iff_ne]
      intro hcc
      exact h (hcc ▸ List.mem_cons_self c rest)
    have hr := ih (fun hm => h (List.mem_cons_of_mem c hm))
    simp only [splitOnCharList, hr, hc]
    simp

theorem trimList_of_no_space (cs : List Char)
    (h : ∀ c ∈ cs, isAsciiSpace c = false) :
    trimList cs = cs := by
  have hdw : ∀ l : List Char, (∀ c ∈ l, isAsciiSpace c = false) →
      l.dropWhile isAsciiSpace = l := by
    intro l hl
    cases l with
    | nil => rfl
    | cons c rest =>
      rw [List.dropWhile_cons, hl c (List.mem_cons_self c rest)]
      simp
  rw [trimList, hdw cs h, hdw cs.reverse (fun c hc => h c (List.mem_reverse.mp hc)),
    List.reverse_reverse]

/-- C4 (amended): the request enters the raw-tunnel path iff the entire
`Connection` header equals "upgrade" case-insensitively and the `Upgrade`
header equals "websocket" case-insensitively. This condition is strictly
stronger than the claim's token-set containment: whenever the code detects
an upgrade, the Connection token set does contain "upgrade" — but a
multi-token header such as "keep-alive, Upgrade" is not detected. -/
theorem isWebSocketUpgrade_amended (conn upg : String)
    (h : isWebSocketUpgrade conn upg = true) :
    connectionTokensContainUpgrade conn = true ∧
    asciiEqualFold upg "websocket" = true := by
  rw [isWebSocketUpgrade, Bool.and_eq_true] at h
  refine ⟨?_, h.2⟩
  have hmap : conn.toList.map foldChar = "upgrade".toList := by
    have h1 := h.1
    rw [asciiEqualFold, beq_iff_eq] at h1
    rw [h1]
    decide
  have hmem : ∀ c ∈ conn.toList, foldChar c ∈ "upgrade".toList := by
    intro c hc
    rw [← hmap]
    exact List.mem_map_of_mem foldChar hc
  have hnc : ',' ∉ conn.toList := by
    intro hm
    have := hmem ',' hm
    revert this
    decide
  have hns : ∀ c ∈ conn.toList, isAsciiSpace c = false := by
    intro c hc
    have hin := hmem c hc
    by_contra hsp
    rw [Bool.not_eq_false] at hsp
    have hcs : c = ' ' ∨ c = '\t' ∨ c = '\n' ∨ c = '\r' ∨ c = '\x0b' ∨ c = '\x0c' := by
      revert hsp
      rw [isAsciiSpace]
      simp only [Bool.or_eq_true, beq_iff_eq]
      tauto
    rcases hcs with h1 | h1 | h1 | h1 | h1 | h1 <;> rw [h1] at hin <;> revert hin <;> decide
  rw [connectionTokensContainUpgrade, splitOnCharList_of_not_mem ',' conn.toList hnc]
  simp only [List.map_cons, List.map_nil, List.any_cons, List.any_nil, Bool.or_false]
  rw [trimList_of_no_space conn.toList hns, hmap]
  decide

/-- Witness for the amended C4: a single-token "Upgrade" header is detected
and its token set does contain "upgrade". -/
theorem isWebSocketUpgrade_amended_witness :
    connectionTokensContainUpgrade "Upgrade" = true ∧
    asciiEqualFold "websocket" "websocket" = true :=
  isWebSocketUpgrade_amended "Upgrade" "websocket" (by decide)

/-- C4 counterexample: `Connection: keep-alive, Upgrade` with
`Upgrade: websocket`: the token set contains "upgrade" so the claim demands
detection, but the code's whole-header comparison rejects it. -/
theorem isWebSocketUpgrade_counterexample :
    connectionTokensContainUpgrade "keep-alive, Upgrade" = true ∧
    asciiEqualFold "websocket" "websocket" = true ∧
    isWebSocketUpgrade "keep-alive, Upgrade" "websocket" = false := by
  refine ⟨by decide, by decide, by decide⟩

/-! ## C1: Host-header routing -/

theorem strToList_append (a b : String) : (a ++ b).toList = a.toList ++ b.toList :=
  String.data_append a b

theorem lastColonSplit_of_not_mem (cs : List Char) (h : ':' ∉ cs) :
    lastColonSplit cs = none := by
  induction cs with
  | nil => rfl
  | cons c rest ih =>
    have hc : (c == ':') = false := by
      simp only [beq_eq_false_iff_ne]
      intro hcc
      exact h (hcc ▸ List.mem_cons_self c rest)
    simp only [lastColonSplit, ih (fun hm => h (List.mem_cons_of_mem c hm)), hc]
    simp

theorem lastColonSplit_append (pre post : List Char) (hp : ':' ∉ post) :
    lastColonSplit (pre ++ ':' :: post) = some (pre, post) := by
  induction pre with
  | nil =>
    simp only [List.nil_append, lastColonSplit, lastColonSplit_of_not_mem post hp]
    simp
  | cons c rest ih =>
    simp only [List.cons_append, lastColonSplit, List.append_eq, ih]

theorem contains_eq_false_of_not_mem (l : List Char) (a : Char) (h : a ∉ l) :
    l.contains a = false := by
  rw [Bool.eq_false_iff]
  intro hx
  exact h (List.elem_iff.mp hx)

theorem stripPort_of_not_mem_colon (host : String) (h : ':' ∉ host.toList) :
    stripPort host = host := by
  simp only [stripPort, splitHostPort, lastColonSplit_of_not_mem host.toList h]

theorem splitHostPort_append (host p : String)
    (hc : ':' ∉ host.toList) (hb1 : '[' ∉ host.toList) (hb2 : ']' ∉ host.toList)
    (hpc : ':' ∉ p.toList) (hpb1 : '[' ∉ p.toList) (hpb2 : ']' ∉ p.toList) :
    splitHostPort (host ++ ":" ++ p) = some (host, p) := by
  have hdata : (host ++ ":" ++ p).toList = host.toList ++ ':' :: p.toList := by
    rw [strToList_append, strToList_append, List.append_assoc]
    rfl
  have hall : host.toList ++ ':' :: p.toList = host.toList ++ ':' :: p.toList := rfl
  have hhead : ((host.toList ++ ':' :: p.toList).head? == some '[') = false := by
    cases hh : host.toList with
    | nil => simp
    | cons c cs0 =>
      have : c ≠ '[' := by
        intro hcc
        exact hb1 (by rw [hh, hcc]; exact List.mem_cons_self _ _)
      simp [this]
  have hcont1 : ((host.toList).contains ':') = false :=
    contains_eq_false_of_not_mem _ _ hc
  have hcont2 : ((host.toList ++ ':' :: p.toList).contains '[') = false := by
    apply contains_eq_false_of_not_mem
    intro hm
    rcases List.mem_append.mp hm with h1 | h1
    · exact hb1 h1
    · rcases List.mem_cons.mp h1 with h2 | h2
      · cases h2
      · exact hpb1 h2
  have hcont3 : ((host.toList ++ ':' :: p.toList).contains ']') = false := by
    apply contains_eq_false_of_not_mem
    intro hm
    rcases List.mem_append.mp hm with h1 | h1
    · exact hb2 h1
    · rcases List.mem_cons.mp h1 with h2 | h2
      · cases h2
      · exact hpb2 h2
  simp only [splitHostPort, hdata, lastColonSplit_append host.toList p.toList hpc,
    hhead, hcont1, hcont2, hcont3]
  simp only [Bool.false_eq_true, if_false]
  rfl

theorem strEndsWith_append (X suffix : String) :
    strEndsWith (X ++ "." ++ suffix) ("." ++ suffix) = true := by
  rw [strEndsWith]
  have hdata : (X ++ "." ++ suffix).toList = X.toList ++ ("." ++ suffix).toList := by
    rw [strToList_append, strToList_append, strToList_append, List.append_assoc]
  rw [hdata]
  exact List.isSuffixOf_iff_suffix.mpr (List.suffix_append _ _)

theorem trimSuffixStr_append (X suffix : String) :
    trimSuffixStr (X ++ "." ++ suffix) ("." ++ suffix) = X := by
  rw [trimSuffixStr, if_pos (strEndsWith_append X suffix)]
  have hdata : (X ++ "." ++ suffix).toList = X.toList ++ '.' :: suffix.toList := by
    rw [strToList_append, strToList_append, List.append_assoc]
    rfl
  have hdot : ("." ++ suffix).toList = '.' :: suffix.toList := by
    rw [strToList_append]
    rfl
  rw [hdata, hdot]
  have hlen : (X.toList ++ '.' :: suffix.toList).length - ('.' :: suffix.toList).length
      = X.toList.length := by
    simp
  rw [hlen, List.take_left]
  rfl

theorem extractSubdomain_of_append (X suffix : String) (hX : X ≠ "") :
    extractSubdomain (X ++ "." ++ suffix) suffix = X := by
  simp only [extractSubdomain, strEndsWith_append X suffix, Bool.not_true,
    Bool.false_eq_true, if_false, trimSuffixStr_append X suffix]
  have : (X == "") = false := by
    simp only [beq_eq_false_iff_ne]
    exact hX
  simp [this]

theorem extractSubdomain_self (suffix : String) :
    extractSubdomain suffix suffix = "" := by
  have hend : strEndsWith suffix ("." ++ suffix) = false := by
    rw [strEndsWith, Bool.eq_false_iff]
    intro hx
    have hle := List.IsSuffix.length_le (List.isSuffixOf_iff_suffix.mp hx)
    rw [strToList_append] at hle
    simp at hle
  simp [extractSubdomain, hend]

theorem extractSubdomain_of_not_end (host suffix : String)
    (h : strEndsWith host ("." ++ suffix) = false) :
    extractSubdomain host suffix = "" := by
  simp [extractSubdomain, h]

/-- C1: routing is decided from the Host header exactly as the code does:
the optional port is stripped first; `X.<suffix>` yields subdomain `X`,
which is looked up in the mapping set only after the reserved check; the
bare suffix, `portgate.<suffix>` (whatever the mapping set holds) and any
host not ending in `.<suffix>` go to the dashboard. The character-absence
hypotheses restrict to hosts where the relevant segment holds no colon or
bracket, matching the claim's `:port`-suffix reading of `SplitHostPort`. -/
theorem proxyRoute_host_rule (mappings : List DomainMapping) (suffix : String)
    (upg : Bool) :
    (':' ∉ suffix.toList →
      proxyRoute mappings suffix ("portgate" ++ "." ++ suffix) upg = .dashboard) ∧
    (':' ∉ suffix.toList →
      proxyRoute mappings suffix suffix upg = .dashboard) ∧
    (∀ rawHost : String, strEndsWith (stripPort rawHost) ("." ++ suffix) = false →
      proxyRoute mappings suffix rawHost upg = .dashboard) ∧
    (∀ X : String, X ≠ "" → X ≠ "portgate" → ':' ∉ X.toList → ':' ∉ suffix.toList →
      (lookupPort mappings X = 0 →
        proxyRoute mappings suffix (X ++ "." ++ suffix) upg = .redirect) ∧
      (lookupPort mappings X ≠ 0 →
        proxyRoute mappings suffix (X ++ "." ++ suffix) upg =
          if upg then .websocketTunnel (lookupPort mappings X)
          else .httpProxy (lookupPort mappings X))) ∧
    (∀ host p : String, ':' ∉ host.toList → '[' ∉ host.toList → ']' ∉ host.toList →
      ':' ∉ p.toList → '[' ∉ p.toList → ']' ∉ p.toList →
      proxyRoute mappings suffix (host ++ ":" ++ p) upg =
        proxyRoute mappings suffix host upg) := by
  have hnc_dot : ∀ X : String, ':' ∉ X.toList → ':' ∉ suffix.toList →
      ':' ∉ (X ++ "." ++ suffix).toList := by
    intro X hX hs hm
    rw [strToList_append, strToList_append] at hm
    rcases List.mem_append.mp hm with h1 | h1
    · rcases List.mem_append.mp h1 with h2 | h2
      · exact hX h2
      · revert h2
        decide
    · exact hs h1
  refine ⟨?_, ?_, ?_, ?_, ?_⟩
  · intro hs
    have hnc := hnc_dot "portgate" (by decide) hs
    simp only [proxyRoute, stripPort_of_not_mem_colon _ hnc,
      extractSubdomain_of_append "portgate" suffix (by decide)]
    simp
  · intro hs
    simp only [proxyRoute, stripPort_of_not_mem_colon suffix hs,
      extractSubdomain_self suffix]
    simp
  · intro rawHost hend
    simp only [proxyRoute, extractSubdomain_of_not_end _ _ hend]
    simp
  · intro X hX hXp hXc hs
    have hnc := hnc_dot X hXc hs
    have hsub : (X == "" || X == "portgate") = false := by
      simp only [Bool.or_eq_false_iff, beq_eq_false_iff_ne]
      exact ⟨hX, hXp⟩
    constructor
    · intro hzero
      simp only [proxyRoute, stripPort_of_not_mem_colon _ hnc,
        extractSubdomain_of_append X suffix hX, hsub, Bool.false_eq_true, if_false,
        hzero]
      simp
    · intro hnzero
      have hz : (lookupPort mappings X == 0) = false := by
        simp only [beq_eq_false_iff_ne]
        exact hnzero
      simp only [proxyRoute, stripPort_of_not_mem_colon _ hnc,
        extractSubdomain_of_append X suffix hX, hsub, Bool.false_eq_true, if_false,
        hz]
  · intro host p hc hb1 hb2 hpc hpb1 hpb2
    have hstrip1 : stripPort (host ++ ":" ++ p) = host := by
      rw [stripPort, splitHostPort_append host p hc hb1 hb2 hpc hpb1 hpb2]
    simp only [proxyRoute, hstrip1, stripPort_of_not_mem_colon host hc]

/-- Witness for C1 at the spec's own test vectors (suffix "localhost"). -/
theorem proxyRoute_host_rule_witness :
    proxyRoute [⟨"portgate", 9999, 0, false⟩] "localhost"
      ("portgate" ++ "." ++ "localhost") false = .dashboard ∧
    proxyRoute [⟨"api", 3000, 0, false⟩] "localhost" "localhost" false = .dashboard ∧
    proxyRoute [⟨"api", 3000, 0, false⟩] "localhost" "example.com" false = .dashboard ∧
    proxyRoute [⟨"api", 3000, 0, false⟩] "localhost"
      ("api" ++ "." ++ "localhost") true = .websocketTunnel 3000 ∧
    proxyRoute [⟨"api", 3000, 0, false⟩] "localhost"
      (("api" ++ "." ++ "localhost") ++ ":" ++ "8080") false =
      proxyRoute [⟨"api", 3000, 0, false⟩] "localhost"
        ("api" ++ "." ++ "localhost") false := by
  have h1 := proxyRoute_host_rule [⟨"portgate", 9999, 0, false⟩] "localhost" false
  have h2 := proxyRoute_host_rule [⟨"api", 3000, 0, false⟩] "localhost" false
  have h3 := proxyRoute_host_rule [⟨"api", 3000, 0, false⟩] "localhost" true
  refine ⟨h1.1 (by decide), h2.2.1 (by decide), ?_, ?_, ?_⟩
  · exact h2.2.2.1 "example.com" (by decide)
  · have := (h3.2.2.2.1 "api" (by decide) (by decide) (by decide) (by decide)).2
      (by decide)
    rw [this]
    decide
  · exact h2.2.2.2.2 ("api" ++ "." ++ "localhost") "8080"
      (by decide) (by decide) (by decide) (by decide) (by decide) (by decide)

end Portgate
